import Mathlib

/-!
Verification development for the RGB-D odometry Levenberg-Marquardt optimizer
(`src/include/lm_optimizer.h`, `src/test_optimizer.cpp`).

The repository ships only the declarative header of the optimizer class and the
test driver; the member-function bodies are not part of the sources.  The data
model below therefore embeds the declared class layout (field names follow
`lm_optimizer.h`), while the algorithmic bodies are modelled from the
specification, as noted in each doc comment.  Scalars are embedded as exact
rationals; values that the implementation must check for finiteness (the
initial transform handed to `Reset`) are embedded by the type `F32`, which
distinguishes finite values from infinities and NaN.
-/

namespace Odometry

attribute [local semireducible] Rat.add Rat.mul Rat.sub Rat.inv

/-- Modelled from the spec: a floating-point scalar, embedded as either a
finite rational value or one of the non-finite IEEE values, so that the
finiteness checks demanded for `Reset` are expressible. -/
inductive F32 where
  | val (q : ℚ)
  | posInf
  | negInf
  | nan
deriving DecidableEq

/-- Whether an embedded scalar is finite. -/
def F32.isFinite : F32 → Bool
  | .val _ => true
  | _ => false

/-- The rational carried by a finite embedded scalar (0 for non-finite ones;
only ever used after a successful finiteness check). -/
def F32.toQ : F32 → ℚ
  | .val q => q
  | _ => 0

/-- `Affine4f` of `data_types.h`: a 4x4 transform matrix. -/
abbrev Affine4f := Matrix (Fin 4) (Fin 4) ℚ

/-- A 4x4 transform as handed over the API boundary, entry-wise possibly
non-finite. -/
abbrev Affine4fRaw := Matrix (Fin 4) (Fin 4) F32

/-- Read a raw transform whose entries passed the finiteness check. -/
def rawToQ (m : Affine4fRaw) : Affine4f := Matrix.of fun i j => (m i j).toQ

/-- Per-level camera intrinsics (spec section 6: `{fx, fy, skew, cx, cy}`). -/
structure Intrinsics where
  fx : ℚ
  fy : ℚ
  skew : ℚ
  cx : ℚ
  cy : ℚ
deriving DecidableEq

/-- Fallback intrinsics used only for out-of-range level lookups. -/
def defaultK : Intrinsics := ⟨1, 1, 0, 0, 0⟩

/-- One pyramid level: a dense 2D buffer of rationals (intensity, or metric
depth with 0 = invalid), as in spec section 6. -/
structure Image where
  width : ℕ
  height : ℕ
  data : ℕ → ℕ → ℚ

/-- Fallback image used only for out-of-range level lookups. -/
def emptyImage : Image := ⟨0, 0, fun _ _ => 0⟩

/-- Modelled from the spec (section 4.2): back-project pixel `(x, y)` with
depth `d` through the level's intrinsics to a 3D point in the camera frame. -/
def backproject (K : Intrinsics) (x y : ℕ) (d : ℚ) : Fin 3 → ℚ :=
  let vn : ℚ := ((y : ℚ) - K.cy) / K.fy
  ![(((x : ℚ) - K.cx - K.skew * vn) / K.fx) * d, vn * d, d]

/-- Homogeneous coordinates of a 3D point. -/
def toHom (p : Fin 3 → ℚ) : Fin 4 → ℚ := ![p 0, p 1, p 2, 1]

/-- Apply a 4x4 transform to a 3D point (homogeneous multiply, drop the last
coordinate). -/
def applyTransform (T : Affine4f) (p : Fin 3 → ℚ) : Fin 3 → ℚ :=
  let hp := T.mulVec (toHom p)
  ![hp 0, hp 1, hp 2]

/-- Modelled from the spec (section 4.2): pinhole projection of a 3D point to
floating-point pixel coordinates. -/
def project (K : Intrinsics) (p : Fin 3 → ℚ) : ℚ × ℚ :=
  ((K.fx * p 0 + K.skew * p 1) / p 2 + K.cx, K.fy * p 1 / p 2 + K.cy)

/-- The full warp of one frame-1 pixel into frame 2's image plane:
back-project, transform, project. -/
def warp (K : Intrinsics) (T : Affine4f) (x y : ℕ) (d : ℚ) : ℚ × ℚ :=
  project K (applyTransform T (backproject K x y d))

/-- Modelled from the spec: the reprojected coordinates lie within the valid
image bounds of frame 2 (the fixed boundary convention keeps the whole
bilinear-interpolation stencil inside the buffer). -/
def inBounds (img : Image) (u v : ℚ) : Bool :=
  decide (0 ≤ u) && decide (u ≤ (img.width : ℚ) - 2) &&
  decide (0 ≤ v) && decide (v ≤ (img.height : ℚ) - 2)

/-- Bilinear interpolation of an image at fractional coordinates. -/
def interp (img : Image) (u v : ℚ) : ℚ :=
  let x0 : ℕ := (⌊u⌋).toNat
  let y0 : ℕ := (⌊v⌋).toNat
  let wx : ℚ := u - (⌊u⌋ : ℚ)
  let wy : ℚ := v - (⌊v⌋ : ℚ)
  (1 - wx) * (1 - wy) * img.data x0 y0 + wx * (1 - wy) * img.data (x0 + 1) y0 +
    (1 - wx) * wy * img.data x0 (y0 + 1) + wx * wy * img.data (x0 + 1) (y0 + 1)

/-- Horizontal image gradient of the bilinear patch at `(u, v)` (analytic
derivative of `interp` in `u`). -/
def gradX (img : Image) (u v : ℚ) : ℚ :=
  let x0 : ℕ := (⌊u⌋).toNat
  let y0 : ℕ := (⌊v⌋).toNat
  let wy : ℚ := v - (⌊v⌋ : ℚ)
  (1 - wy) * (img.data (x0 + 1) y0 - img.data x0 y0) +
    wy * (img.data (x0 + 1) (y0 + 1) - img.data x0 (y0 + 1))

/-- Vertical image gradient of the bilinear patch at `(u, v)` (analytic
derivative of `interp` in `v`). -/
def gradY (img : Image) (u v : ℚ) : ℚ :=
  let x0 : ℕ := (⌊u⌋).toNat
  let y0 : ℕ := (⌊v⌋).toNat
  let wx : ℚ := u - (⌊u⌋ : ℚ)
  (1 - wx) * (img.data x0 (y0 + 1) - img.data x0 y0) +
    wx * (img.data (x0 + 1) (y0 + 1) - img.data (x0 + 1) y0)

/-- Modelled from the spec (section 4.2): the Jacobian row of one valid pixel,
chaining the image gradient at the warped position, the projection Jacobian
and the rigid-motion generators; twist ordering is 3 rotation then 3
translation parameters. -/
def jacobianRow (K : Intrinsics) (img2 : Image) (pt : Fin 3 → ℚ) (u v : ℚ) :
    Fin 6 → ℚ :=
  let X := pt 0
  let Y := pt 1
  let Z := pt 2
  let gx := gradX img2 u v
  let gy := gradY img2 u v
  let a0 := gx * (K.fx / Z)
  let a1 := gx * (K.skew / Z) + gy * (K.fy / Z)
  let a2 := gx * (-(K.fx * X + K.skew * Y) / (Z * Z)) +
    gy * (-(K.fy * Y) / (Z * Z))
  ![a2 * Y - a1 * Z, a0 * Z - a2 * X, a1 * X - a0 * Y, a0, a1, a2]

/-- Modelled from the spec (section 4.2): the contribution of one frame-1
pixel — `some (residual, jacobian row)` when the depth is valid and the warp
lands in bounds, `none` (excluded, not zero-weighted) otherwise. -/
def pixelKernel (K : Intrinsics) (img1 img2 dep1 : Image) (T : Affine4f)
    (x y : ℕ) : Option (ℚ × (Fin 6 → ℚ)) :=
  let d := dep1.data x y
  if 0 < d then
    let uv := warp K T x y d
    if inBounds img2 uv.1 uv.2 then
      some (interp img2 uv.1 uv.2 - img1.data x y,
        jacobianRow K img2 (applyTransform T (backproject K x y d)) uv.1 uv.2)
    else none
  else none

/-- Modelled from the spec: `ComputeResidualJacobianNaive` of
`lm_optimizer.h` — one plain row-major loop over all pixels of frame 1,
keeping the contributions of the valid ones.  The residual count
`num_residual` is the length of the returned list. -/
def ComputeResidualJacobianNaive (K : Intrinsics) (img1 img2 dep1 : Image)
    (T : Affine4f) : List (ℚ × (Fin 6 → ℚ)) :=
  ((List.range img1.height).map fun y =>
    (List.range img1.width).filterMap fun x =>
      pixelKernel K img1 img2 dep1 T x y).flatten

/-- The pixel-column traversal order of the vectorized builder: each image row
is processed in aligned blocks of four pixels, followed by a scalar remainder
loop over the block-unaligned tail. -/
def sseRowIndices (w : ℕ) : List ℕ :=
  (((List.range (w / 4)).map fun b =>
      (List.range 4).map fun i => 4 * b + i).flatten) ++
    ((List.range (w % 4)).map fun i => 4 * (w / 4) + i)

/-- Modelled from the spec: `ComputeResidualJacobianSse` of
`lm_optimizer.h` — processes four-pixel blocks per row with scalar remainder
handling for the tail, applying the same per-pixel kernel. -/
def ComputeResidualJacobianSse (K : Intrinsics) (img1 img2 dep1 : Image)
    (T : Affine4f) : List (ℚ × (Fin 6 → ℚ)) :=
  ((List.range img1.height).map fun y =>
    (sseRowIndices img1.width).filterMap fun x =>
      pixelKernel K img1 img2 dep1 T x y).flatten

/-- Degrees of freedom of the t-distribution robust estimator (fixed
constant, spec section 4.3). -/
def tdistNu : ℚ := 5

/-- Modelled from the spec (section 4.3): the robust weight of a residual.
`robust` follows `robust_est_` of `lm_optimizer.h`: 0 no robust weighting,
1 Huber with threshold `delta`, 2 t-distribution.  The t-distribution scale
is tracked as its square `s2`, so `(r / sigma)^2` is `r * r / s2`. -/
def computeWeight (robust : ℕ) (delta s2 r : ℚ) : ℚ :=
  match robust with
  | 0 => 1
  | 1 => if |r| ≤ delta then 1 else delta / |r|
  | _ => (tdistNu + 1) / (tdistNu + r * r / s2)

/-- One fixed-point refinement of the squared t-distribution scale over the
residual population (spec section 4.3). -/
def scaleStep (rs : List ℚ) (s2 : ℚ) : ℚ :=
  (rs.foldr
    (fun r acc => acc + r * r * ((tdistNu + 1) / (tdistNu + r * r / s2)))
    0) / (rs.length : ℚ)

/-- Modelled from the spec: `ComputeScaleNaive` of `lm_optimizer.h` — a small
fixed number of fixed-point iterations for the squared t-distribution
scale. -/
def ComputeScaleNaive (rs : List ℚ) : ℚ :=
  scaleStep rs (scaleStep rs (scaleStep rs (scaleStep rs (scaleStep rs 1))))

/-- Accumulate the weighted normal-equation data over the residual list:
the 6x6 approximate Hessian `Jᵀ W J`, the gradient `Jᵀ W r`, and the cost
(weighted sum of squared residuals). -/
def buildNormal (robust : ℕ) (delta s2 : ℚ) (rsJ : List (ℚ × (Fin 6 → ℚ))) :
    Matrix (Fin 6) (Fin 6) ℚ × (Fin 6 → ℚ) × ℚ :=
  rsJ.foldr
    (fun rJ acc =>
      let w := computeWeight robust delta s2 rJ.1
      (Matrix.of fun i j => acc.1 i j + w * rJ.2 i * rJ.2 j,
       fun i => acc.2.1 i + w * rJ.2 i * rJ.1,
       acc.2.2 + w * rJ.1 * rJ.1))
    (0, fun _ => 0, 0)

/-- Levenberg-Marquardt damping applied to the diagonal of the approximate
Hessian (spec section 4.1 d). -/
def dampedMatrix (lam : ℚ) (H : Matrix (Fin 6) (Fin 6) ℚ) :
    Matrix (Fin 6) (Fin 6) ℚ :=
  Matrix.of fun i j => H i j + if i = j then lam * H i j else 0

/-- Solve the 6x6 linear system by Cramer's rule; `none` exactly when the
system is singular (the `NumericalError` of spec section 7). -/
def cramerSolve (A : Matrix (Fin 6) (Fin 6) ℚ) (b : Fin 6 → ℚ) :
    Option (Fin 6 → ℚ) :=
  if A.det = 0 then none
  else some fun i => (A.updateColumn i b).det / A.det

/-- Modelled from the spec: the twist increment exponentiated to a 4x4
transform; the trigonometric exponential is embedded by its first-order
rational form (the increment is infinitesimal at the linearization point). -/
def expTwist (xi : Fin 6 → ℚ) : Affine4f :=
  !![1, -(xi 2), xi 1, xi 3;
     xi 2, 1, -(xi 0), xi 4;
     -(xi 1), xi 0, 1, xi 5;
     0, 0, 0, 1]

/-- Squared Euclidean norm of a twist increment. -/
def normSq6 (v : Fin 6 → ℚ) : ℚ :=
  v 0 * v 0 + v 1 * v 1 + v 2 * v 2 + v 3 * v 3 + v 4 * v 4 + v 5 * v 5

/-- Minimal number of valid residuals below which a pyramid level is treated
as having insufficient geometric/photometric overlap (spec section 4.1 b). -/
def kMinResiduals : ℕ := 6

/-- Fixed multiplicative factor by which the damping is increased after a
rejected step (fixed documented constant, spec section 9). -/
def lambdaUpFactor : ℚ := 10

/-- Fixed factor by which the damping is divided after an accepted step. -/
def lambdaDownFactor : ℚ := 10

/-- Numerical-convergence floor on the squared increment magnitude (spec
section 4.1 g). -/
def convergenceFloor : ℚ := 1 / 10 ^ 20

/-- The squared t-distribution scale used for weighting a residual list:
estimated for the t-distribution estimator, constant otherwise. -/
def scaleFor (robust : ℕ) (rsJ : List (ℚ × (Fin 6 → ℚ))) : ℚ :=
  if robust = 2 then ComputeScaleNaive (rsJ.map Prod.fst) else 1

/-- Weighted sum of squared residuals of a residual list. -/
def costOf (robust : ℕ) (delta : ℚ) (rsJ : List (ℚ × (Fin 6 → ℚ))) : ℚ :=
  (buildNormal robust delta (scaleFor robust rsJ) rsJ).2.2

/-- Cost of a candidate transform on one pyramid level. -/
def costAt (robust : ℕ) (delta : ℚ) (K : Intrinsics)
    (img1 dep1 img2 : Image) (T : Affine4f) : ℚ :=
  costOf robust delta (ComputeResidualJacobianNaive K img1 img2 dep1 T)

/-- The per-level iteration state of the LM loop: current transform estimate,
damping factor, current cost, iterations performed so far. -/
structure IterState where
  transform : Affine4f
  lambda : ℚ
  cost : ℚ
  iters : ℕ
deriving DecidableEq

/-- Modelled from the spec (section 4.1 f): accept the candidate when its cost
decreased (adopt it and divide the damping by the fixed factor), otherwise
reject (keep the prior transform, multiply the damping by the fixed factor);
the iteration counter advances either way. -/
def applyStep (st : IterState) (cand : Affine4f) (newCost : ℚ) : IterState :=
  if newCost < st.cost then
    { transform := cand, lambda := st.lambda / lambdaDownFactor,
      cost := newCost, iters := st.iters + 1 }
  else
    { transform := st.transform, lambda := st.lambda * lambdaUpFactor,
      cost := st.cost, iters := st.iters + 1 }

/-- The structural failure outcomes of spec section 7. -/
inductive OptError where
  | insufficientData
  | numericalError
  | configurationError
deriving DecidableEq

/-- Modelled from the spec (section 4.1): one LM iteration on one pyramid
level — build residuals/Jacobian, check the residual count, weight, form the
damped weighted normal equations, solve for the increment, evaluate the
candidate cost, accept or reject, and report whether the level's early
termination conditions fired. -/
def lmIteration (precision delta : ℚ) (robust : ℕ) (K : Intrinsics)
    (img1 dep1 img2 : Image) (st : IterState) :
    Except OptError (IterState × Bool) :=
  let rsJ := ComputeResidualJacobianNaive K img1 img2 dep1 st.transform
  if rsJ.length < kMinResiduals then .error .insufficientData
  else
    let s2 := scaleFor robust rsJ
    let hg := buildNormal robust delta s2 rsJ
    let A := dampedMatrix st.lambda hg.1
    match cramerSolve A (fun i => -(hg.2.1 i)) with
    | none => .error .numericalError
    | some dxi =>
      let cand := expTwist dxi * st.transform
      let newCost := costAt robust delta K img1 dep1 img2 cand
      let stop :=
        (decide (newCost < st.cost) &&
          decide (st.cost - newCost < precision * st.cost)) ||
        decide (normSq6 dxi < convergenceFloor)
      .ok (applyStep st cand newCost, stop)

/-- The per-level LM loop: at most `fuel` iterations (the level's configured
iteration cap), stopping early on convergence, propagating structural
failures. -/
def runLevelLoop (precision delta : ℚ) (robust : ℕ) (K : Intrinsics)
    (img1 dep1 img2 : Image) : ℕ → IterState → Except OptError IterState
  | 0, st => .ok st
  | fuel + 1, st =>
    match lmIteration precision delta robust K img1 dep1 img2 st with
    | .error e => .error e
    | .ok sb =>
      if sb.2 then .ok sb.1
      else runLevelLoop precision delta robust K img1 dep1 img2 fuel sb.1

/-- Modelled from the spec: run one pyramid level — fail if the level has
insufficient valid residuals, otherwise record the cost before optimization
and iterate up to the level's cap.  Returns the final iteration state and the
cost before optimization. -/
def runLevel (precision delta : ℚ) (robust : ℕ) (K : Intrinsics)
    (img1 dep1 img2 : Image) (cap : ℕ) (T0 : Affine4f) (lam0 : ℚ) :
    Except OptError (IterState × ℚ) :=
  let rsJ := ComputeResidualJacobianNaive K img1 img2 dep1 T0
  if rsJ.length < kMinResiduals then .error .insufficientData
  else
    let c0 := costOf robust delta rsJ
    match runLevelLoop precision delta robust K img1 dep1 img2 cap
        { transform := T0, lambda := lam0, cost := c0, iters := 0 } with
    | .error e => .error e
    | .ok st => .ok (st, c0)

/-- Modelled from the spec: process pyramid levels from the coarsest (index
`l`) down to the finest (index 0), carrying the transform estimate and the
damping across levels.  Returns the final transform and damping together with
the per-level iteration counts and before/after costs, both indexed by
level. -/
def solveFrom (precision delta : ℚ) (robust : ℕ) (cams : List Intrinsics)
    (maxIts : List ℕ) (p1 d1 p2 : List Image) :
    ℕ → Affine4f → ℚ → Except OptError (Affine4f × ℚ × List ℕ × List (ℚ × ℚ))
  | 0, T, lam =>
    match runLevel precision delta robust (cams.getD 0 defaultK)
        (p1.getD 0 emptyImage) (d1.getD 0 emptyImage) (p2.getD 0 emptyImage)
        (maxIts.getD 0 0) T lam with
    | .error e => .error e
    | .ok stc =>
      .ok (stc.1.transform, stc.1.lambda, [stc.1.iters], [(stc.2, stc.1.cost)])
  | l + 1, T, lam =>
    match runLevel precision delta robust (cams.getD (l + 1) defaultK)
        (p1.getD (l + 1) emptyImage) (d1.getD (l + 1) emptyImage)
        (p2.getD (l + 1) emptyImage) (maxIts.getD (l + 1) 0) T lam with
    | .error e => .error e
    | .ok stc =>
      match solveFrom precision delta robust cams maxIts p1 d1 p2 l
          stc.1.transform stc.1.lambda with
      | .error e => .error e
      | .ok r =>
        .ok (r.1, r.2.1, r.2.2.1 ++ [stc.1.iters], r.2.2.2 ++ [(stc.2, stc.1.cost)])

/-- Modelled from the spec: the coarse-to-fine solve over all configured
levels, starting from the initial transform hypothesis and initial damping. -/
def solveCore (precision delta : ℚ) (robust : ℕ) (cams : List Intrinsics)
    (maxIts : List ℕ) (T0 : Affine4f) (lam0 : ℚ) (p1 d1 p2 : List Image) :
    Except OptError (Affine4f × ℚ × List ℕ × List (ℚ × ℚ)) :=
  if maxIts.length = 0 then .error .configurationError
  else
    solveFrom precision delta robust cams maxIts p1 d1 p2 (maxIts.length - 1)
      T0 lam0

/-- The optimizer instance; fields follow the private data members of
`LevenbergMarquardtOptimizer` in `lm_optimizer.h`. -/
structure Optimizer where
  lambda_ : ℚ
  precision_ : ℚ
  max_iterations_ : List ℕ
  affine_init_ : Affine4f
  affine_ : Affine4f
  iters_stat_ : List ℕ
  cost_stat_ : List (ℚ × ℚ)
  robust_est_ : ℕ
  huber_delta_ : ℚ
  camera_ptr_ : List Intrinsics
deriving DecidableEq

/-- `OptimizerStatus` of `data_types.h`: success, or the failure value the
header documents as `-1`. -/
inductive OptimizerStatus where
  | ok
  | failed
deriving DecidableEq

/-- All entries of a raw transform are finite. -/
def allFinite (m : Affine4fRaw) : Bool :=
  decide (∀ i j, (m i j).isFinite = true)

/-- Modelled from the spec: `Reset` of `lm_optimizer.h` — fails (without
touching the state) when the reinitialization is structurally inconsistent
(non-finite initial transform or non-positive damping); otherwise resets the
initial pose and damping factor and clears the accumulated statistics. -/
def Reset (o : Optimizer) (kRelativeInit : Affine4fRaw) (lambda : ℚ) :
    OptimizerStatus × Optimizer :=
  if allFinite kRelativeInit && decide (0 < lambda) then
    (.ok,
      { o with
        affine_init_ := rawToQ kRelativeInit,
        lambda_ := lambda,
        iters_stat_ := [],
        cost_stat_ := [] })
  else (.failed, o)

/-- Modelled from the spec: `Solve` of `lm_optimizer.h` — run the
coarse-to-fine optimization from `affine_init_` and `lambda_`; on success
store the result transform, final damping and statistics; on a structural
failure signal the distinct failure outcome and leave the state in its
pre-failure configuration. -/
def Solve (o : Optimizer) (p1 d1 p2 : List Image) :
    Except OptError Affine4f × Optimizer :=
  match solveCore o.precision_ o.huber_delta_ o.robust_est_ o.camera_ptr_
      o.max_iterations_ o.affine_init_ o.lambda_ p1 d1 p2 with
  | .error e => (.error e, o)
  | .ok r =>
    (.ok r.1,
      { o with
        affine_ := r.1,
        lambda_ := r.2.1,
        iters_stat_ := r.2.2.1,
        cost_stat_ := r.2.2.2 })

/-- Concrete 4x4 intensity frame used by the witnesses (constant image). -/
def imgW : Image := ⟨4, 4, fun _ _ => 7⟩

/-- Concrete depth frame used by the witnesses (all pixels valid, depth 1). -/
def depW : Image := ⟨4, 4, fun _ _ => 1⟩

/-- Concrete single-level optimizer used by the witnesses: identity initial
transform, positive damping, iteration cap 0. -/
def oW5 : Optimizer :=
  { lambda_ := 1 / 100, precision_ := 1 / 2, max_iterations_ := [0],
    affine_init_ := 1, affine_ := 1, iters_stat_ := [], cost_stat_ := [],
    robust_est_ := 0, huber_delta_ := 1, camera_ptr_ := [defaultK] }

/-- The post-`Solve` state of `oW5` on the witness frames. -/
def o5' : Optimizer :=
  { lambda_ := 1 / 100, precision_ := 1 / 2, max_iterations_ := [0],
    affine_init_ := 1, affine_ := 1, iters_stat_ := [0],
    cost_stat_ := [(0, 0)], robust_est_ := 0, huber_delta_ := 1,
    camera_ptr_ := [defaultK] }

/-- Concrete optimizer with an empty level configuration, used by witnesses
that exercise the failure path of `Solve`. -/
def oW6 : Optimizer :=
  { lambda_ := 1, precision_ := 1 / 2, max_iterations_ := [],
    affine_init_ := 1, affine_ := 1, iters_stat_ := [2], cost_stat_ := [],
    robust_est_ := 0, huber_delta_ := 1, camera_ptr_ := [defaultK] }

/-- Concrete single-level optimizer whose coarsest level has no valid depth,
used by the insufficient-data witness. -/
def oW7 : Optimizer :=
  { lambda_ := 1, precision_ := 1 / 2, max_iterations_ := [5],
    affine_init_ := 1, affine_ := 1, iters_stat_ := [], cost_stat_ := [],
    robust_est_ := 0, huber_delta_ := 1, camera_ptr_ := [defaultK] }

/-- Concrete all-finite raw initial transform (the identity) used by the
witnesses. -/
def initW : Affine4fRaw :=
  Matrix.of fun i j => F32.val (if i = j then 1 else 0)

/-- Concrete 1x1 intensity frame for failure-path witnesses. -/
def tinyImg : Image := ⟨1, 1, fun _ _ => 7⟩

/-- Concrete 1x1 depth frame with no valid depth. -/
def tinyDep0 : Image := ⟨1, 1, fun _ _ => 0⟩

deriving instance DecidableEq for Except

/-- Computable inverse of a 4x4 transform via the adjugate (the
`rela_pose.inverse()` of `test_optimizer.cpp`). -/
def inv4 (A : Affine4f) : Affine4f := A.det⁻¹ • A.adjugate

/-- The absolute-pose update of `test_optimizer.cpp` line 94: the next
absolute pose is the previous one composed with the inverse of the relative
transform returned by `Solve`. -/
def nextAbsolutePose (pred rela : Affine4f) : Affine4f := pred * inv4 rela

/-! ### Theorems -/

/-- The blocked traversal of four-pixel groups enumerates exactly the first
`4 * q` columns in order. -/
theorem blockFlatten (q : ℕ) :
    (((List.range q).map fun b => (List.range 4).map fun i => 4 * b + i).flatten)
      = List.range (4 * q) := by
  induction q with
  | zero => rfl
  | succ n ih =>
    rw [List.range_succ n, List.map_append, List.flatten_append, ih]
    have h4 : 4 * (n + 1) = 4 * n + 4 := by ring
    rw [h4, List.range_add]
    simp

/-- The vectorized traversal order (blocks of four plus scalar remainder) is
the plain row-major column order. -/
theorem sseRowIndices_eq_range (w : ℕ) : sseRowIndices w = List.range w := by
  unfold sseRowIndices
  rw [blockFlatten, ← List.range_add, Nat.div_add_mod]

/-- Claim C1: on identical inputs the naive and the vectorized
residual/Jacobian builders produce identical residual/Jacobian lists (hence
equal `num_residual` counts, matching ordering, and values equal within any
floating-point tolerance). -/
theorem C1_naive_sse_equivalence (K : Intrinsics) (img1 img2 dep1 : Image)
    (T : Affine4f) :
    ComputeResidualJacobianSse K img1 img2 dep1 T =
        ComputeResidualJacobianNaive K img1 img2 dep1 T ∧
      (ComputeResidualJacobianSse K img1 img2 dep1 T).length =
        (ComputeResidualJacobianNaive K img1 img2 dep1 T).length := by
  have h : ComputeResidualJacobianSse K img1 img2 dep1 T =
      ComputeResidualJacobianNaive K img1 img2 dep1 T := by
    unfold ComputeResidualJacobianSse ComputeResidualJacobianNaive
    rw [sseRowIndices_eq_range]
  exact ⟨h, by rw [h]⟩

/-- Claim C2: a pixel of frame 1 contributes a residual if and only if its
depth is positive and its back-projected, transformed and re-projected
position lands within frame 2's valid bounds; the residual is then the
bilinearly interpolated frame-2 intensity minus the frame-1 intensity, and
otherwise the pixel contributes no residual at all. -/
theorem C2_pixel_residual_characterization (K : Intrinsics)
    (img1 img2 dep1 : Image) (T : Affine4f) (x y : ℕ) :
    pixelKernel K img1 img2 dep1 T x y =
      if 0 < dep1.data x y ∧
          inBounds img2 (warp K T x y (dep1.data x y)).1
            (warp K T x y (dep1.data x y)).2 = true then
        some
          (interp img2 (warp K T x y (dep1.data x y)).1
              (warp K T x y (dep1.data x y)).2 - img1.data x y,
            jacobianRow K img2
              (applyTransform T (backproject K x y (dep1.data x y)))
              (warp K T x y (dep1.data x y)).1
              (warp K T x y (dep1.data x y)).2)
      else none := by
  unfold pixelKernel
  by_cases h1 : 0 < dep1.data x y
  · by_cases h2 : inBounds img2 (warp K T x y (dep1.data x y)).1
        (warp K T x y (dep1.data x y)).2 = true
    · simp [h1, h2]
    · simp [h1, h2]
  · simp [h1]

/-- Claim C3: with the Huber estimator selected, the weight of a residual `r`
is exactly 1 when `|r| ≤ delta` and exactly `delta / |r|` when
`|r| > delta`. -/
theorem C3_huber_weight (delta s2 r : ℚ) :
    (|r| ≤ delta → computeWeight 1 delta s2 r = 1) ∧
      (delta < |r| → computeWeight 1 delta s2 r = delta / |r|) := by
  unfold computeWeight
  constructor
  · intro h
    rw [if_pos h]
  · intro h
    rw [if_neg (not_le.mpr h)]

/-- Witness for claim C3 at concrete residuals on both sides of the
threshold. -/
theorem C3_huber_weight_witness :
    computeWeight 1 2 1 1 = 1 ∧ computeWeight 1 2 1 (-3) = 2 / 3 := by
  constructor
  · exact (C3_huber_weight 2 1 1).1 (by norm_num)
  · rw [(C3_huber_weight 2 1 (-3)).2 (by norm_num)]
    norm_num

/-- An LM step advances the iteration counter by exactly one, accepted or
rejected. -/
theorem applyStep_iters (st : IterState) (cand : Affine4f) (c' : ℚ) :
    (applyStep st cand c').iters = st.iters + 1 := by
  unfold applyStep
  split <;> rfl

/-- An LM step keeps the damping factor strictly positive. -/
theorem applyStep_lambda_pos (st : IterState) (cand : Affine4f) (c' : ℚ)
    (h : 0 < st.lambda) : 0 < (applyStep st cand c').lambda := by
  unfold applyStep
  split
  · exact div_pos h (by norm_num [lambdaDownFactor])
  · exact mul_pos h (by norm_num [lambdaUpFactor])

/-- A successful LM iteration advances the counter by one and keeps the
damping positive. -/
theorem lmIteration_ok (precision delta : ℚ) (robust : ℕ) (K : Intrinsics)
    (img1 dep1 img2 : Image) (st : IterState) (sb : IterState × Bool)
    (h : lmIteration precision delta robust K img1 dep1 img2 st = .ok sb) :
    sb.1.iters = st.iters + 1 ∧ (0 < st.lambda → 0 < sb.1.lambda) := by
  simp only [lmIteration] at h
  split at h
  · simp at h
  · split at h
    · simp at h
    · injection h with h
      subst h
      exact ⟨applyStep_iters _ _ _, applyStep_lambda_pos _ _ _⟩

/-- The per-level loop performs at most `fuel` iterations and keeps the
damping positive throughout. -/
theorem runLevelLoop_ok (precision delta : ℚ) (robust : ℕ) (K : Intrinsics)
    (img1 dep1 img2 : Image) :
    ∀ (fuel : ℕ) (st st' : IterState),
      runLevelLoop precision delta robust K img1 dep1 img2 fuel st = .ok st' →
      st'.iters ≤ st.iters + fuel ∧ (0 < st.lambda → 0 < st'.lambda) := by
  intro fuel
  induction fuel with
  | zero =>
    intro st st' h
    simp only [runLevelLoop] at h
    injection h with h
    subst h
    exact ⟨Nat.le_refl _, fun hp => hp⟩
  | succ n ih =>
    intro st st' h
    simp only [runLevelLoop] at h
    split at h
    · simp at h
    · rename_i sb hit
      obtain ⟨hi, hp⟩ := lmIteration_ok precision delta robust K img1 dep1
        img2 st sb hit
      split at h
      · injection h with h
        subst h
        refine ⟨?_, hp⟩
        omega
      · obtain ⟨hle, hpp⟩ := ih sb.1 st' h
        refine ⟨?_, fun h0 => hpp (hp h0)⟩
        omega

/-- A successful level run performs at most `cap` iterations and keeps the
damping positive. -/
theorem runLevel_ok (precision delta : ℚ) (robust : ℕ) (K : Intrinsics)
    (img1 dep1 img2 : Image) (cap : ℕ) (T0 : Affine4f) (lam0 : ℚ)
    (stc : IterState × ℚ)
    (h : runLevel precision delta robust K img1 dep1 img2 cap T0 lam0 =
      .ok stc) :
    stc.1.iters ≤ cap ∧ (0 < lam0 → 0 < stc.1.lambda) := by
  simp only [runLevel] at h
  split at h
  · simp at h
  · split at h
    · simp at h
    · rename_i st hloop
      injection h with h
      subst h
      obtain ⟨hle, hp⟩ := runLevelLoop_ok precision delta robust K img1 dep1
        img2 cap _ st hloop
      exact ⟨by simpa using hle, hp⟩

/-- A successful coarse-to-fine run from level `l` produces one iteration
statistic per level, each within that level's configured cap, and keeps the
final damping positive. -/
theorem solveFrom_ok (precision delta : ℚ) (robust : ℕ)
    (cams : List Intrinsics) (maxIts : List ℕ) (p1 d1 p2 : List Image) :
    ∀ (l : ℕ) (T : Affine4f) (lam : ℚ)
      (r : Affine4f × ℚ × List ℕ × List (ℚ × ℚ)),
      solveFrom precision delta robust cams maxIts p1 d1 p2 l T lam = .ok r →
      r.2.2.1.length = l + 1 ∧
        (∀ i, r.2.2.1.getD i 0 ≤ maxIts.getD i 0) ∧
        (0 < lam → 0 < r.2.1) := by
  intro l
  induction l with
  | zero =>
    intro T lam r h
    simp only [solveFrom] at h
    split at h
    · simp at h
    · rename_i stc hlev
      injection h with h
      subst h
      obtain ⟨hle, hp⟩ := runLevel_ok precision delta robust _ _ _ _ _ _ _
        stc hlev
      refine ⟨rfl, ?_, hp⟩
      intro i
      match i with
      | 0 => exact hle
      | i + 1 => exact Nat.zero_le _
  | succ n ih =>
    intro T lam r h
    simp only [solveFrom] at h
    split at h
    · simp at h
    · rename_i stc hlev
      split at h
      · simp at h
      · rename_i r' hrec
        injection h with h
        subst h
        obtain ⟨hlen, hbound, hpos⟩ := ih stc.1.transform stc.1.lambda r' hrec
        obtain ⟨hle, hp⟩ := runLevel_ok precision delta robust _ _ _ _ _ _ _
          stc hlev
        refine ⟨?_, ?_, fun h0 => hpos (hp h0)⟩
        · simp [hlen]
        · intro i
          rcases Nat.lt_or_ge i (n + 1) with hi | hi
          · rw [List.getD_append _ _ _ _ (by omega)]
            exact hbound i
          · rcases Nat.eq_or_lt_of_le hi with hi' | hi'
            · rw [List.getD_append_right _ _ _ _ (by omega)]
              rw [hlen, ← hi']
              simp only [Nat.sub_self, List.getD]
              simpa using hle
            · rw [List.getD_append_right _ _ _ _ (by omega)]
              rw [List.getD_eq_default]
              · exact Nat.zero_le _
              · simp only [List.length_singleton]
                omega

/-- Claim C5: after a successful `Solve`, the recorded per-level iteration
count never exceeds the configured per-level cap. -/
theorem C5_iteration_cap (o : Optimizer) (p1 d1 p2 : List Image)
    (T : Affine4f) (o' : Optimizer)
    (h : Solve o p1 d1 p2 = (.ok T, o')) (l : ℕ) :
    o'.iters_stat_.getD l 0 ≤ o.max_iterations_.getD l 0 := by
  unfold Solve at h
  cases hsc : solveCore o.precision_ o.huber_delta_ o.robust_est_
      o.camera_ptr_ o.max_iterations_ o.affine_init_ o.lambda_ p1 d1 p2 with
  | error e =>
    rw [hsc] at h
    simp at h
  | ok r =>
    rw [hsc] at h
    have ho' := congrArg Prod.snd h
    dsimp only at ho'
    rw [← ho']
    simp only [solveCore] at hsc
    split at hsc
    · simp at hsc
    · exact (solveFrom_ok o.precision_ o.huber_delta_ o.robust_est_
        o.camera_ptr_ o.max_iterations_ p1 d1 p2 _ _ _ r hsc).2.1 l

set_option maxRecDepth 10000 in
/-- Witness for claim C5: on a concrete one-level configuration with nine
valid residuals and iteration cap 0, the recorded iteration count respects
the cap. -/
theorem C5_iteration_cap_witness :
    o5'.iters_stat_.getD 0 0 ≤ oW5.max_iterations_.getD 0 0 :=
  C5_iteration_cap oW5 [imgW] [depW] [imgW] 1 o5' (by decide) 0

/-- A successful `Solve` leaves a strictly positive damping factor when it
started from one. -/
theorem Solve_lambda_pos (o : Optimizer) (p1 d1 p2 : List Image)
    (T : Affine4f) (o' : Optimizer) (hp : 0 < o.lambda_)
    (h : Solve o p1 d1 p2 = (.ok T, o')) : 0 < o'.lambda_ := by
  unfold Solve at h
  cases hsc : solveCore o.precision_ o.huber_delta_ o.robust_est_
      o.camera_ptr_ o.max_iterations_ o.affine_init_ o.lambda_ p1 d1 p2 with
  | error e =>
    rw [hsc] at h
    simp at h
  | ok r =>
    rw [hsc] at h
    have ho' := congrArg Prod.snd h
    dsimp only at ho'
    rw [← ho']
    simp only [solveCore] at hsc
    split at hsc
    · simp at hsc
    · exact (solveFrom_ok o.precision_ o.huber_delta_ o.robust_est_
        o.camera_ptr_ o.max_iterations_ p1 d1 p2 _ _ _ r hsc).2.2 hp

/-- Claim C4: starting from a positive damping factor, a rejected LM step
(candidate cost not smaller) strictly increases the damping and keeps the
prior transform, an accepted step strictly decreases the damping, a step
keeps the damping strictly positive, and the damping stays strictly positive
through the per-level loop and through a whole successful `Solve`. -/
theorem C4_damping_adaptation (st : IterState) (cand : Affine4f) (c' : ℚ)
    (precision delta : ℚ) (robust : ℕ) (K : Intrinsics)
    (img1 dep1 img2 : Image) (fuel : ℕ) (st' : IterState) (o : Optimizer)
    (p1 d1 p2 : List Image) (T : Affine4f) (o' : Optimizer)
    (hpos : 0 < st.lambda) :
    (st.cost ≤ c' →
        st.lambda < (applyStep st cand c').lambda ∧
          (applyStep st cand c').transform = st.transform) ∧
      (c' < st.cost → (applyStep st cand c').lambda < st.lambda) ∧
      0 < (applyStep st cand c').lambda ∧
      (runLevelLoop precision delta robust K img1 dep1 img2 fuel st =
          .ok st' → 0 < st'.lambda) ∧
      (0 < o.lambda_ → Solve o p1 d1 p2 = (.ok T, o') → 0 < o'.lambda_) := by
  refine ⟨?_, ?_, applyStep_lambda_pos st cand c' hpos,
    fun hloop => (runLevelLoop_ok precision delta robust K img1 dep1 img2
      fuel st st' hloop).2 hpos,
    fun hop hsol => Solve_lambda_pos o p1 d1 p2 T o' hop hsol⟩
  · intro hred
    have hn : ¬ c' < st.cost := not_lt.mpr hred
    unfold applyStep
    simp only [if_neg hn]
    refine ⟨?_, trivial⟩
    show st.lambda < st.lambda * lambdaUpFactor
    unfold lambdaUpFactor
    linarith
  · intro hacc
    unfold applyStep
    simp only [if_pos hacc]
    show st.lambda / lambdaDownFactor < st.lambda
    unfold lambdaDownFactor
    exact div_lt_self hpos (by norm_num)

set_option maxRecDepth 10000 in
/-- Witness for claim C4 at concrete states: a rejected step from damping 1
raises it and keeps the transform, an accepted step lowers it, both keep it
positive, the trivial loop keeps it positive, and the concrete successful
`Solve` of the C5 configuration ends with positive damping. -/
theorem C4_damping_adaptation_witness :
    (1 : ℚ) < (applyStep ⟨1, 1, 1, 0⟩ 1 2).lambda ∧
      (applyStep ⟨1, 1, 1, 0⟩ 1 2).transform = (1 : Affine4f) ∧
      (applyStep ⟨1, 1, 1, 0⟩ 1 0).lambda < 1 ∧
      0 < (applyStep ⟨1, 1, 1, 0⟩ 1 2).lambda ∧
      0 < ((⟨1, 1, 1, 0⟩ : IterState)).lambda ∧
      0 < o5'.lambda_ := by
  have h := C4_damping_adaptation ⟨1, 1, 1, 0⟩ 1 2 0 0 0 defaultK
    emptyImage emptyImage emptyImage 0 ⟨1, 1, 1, 0⟩ oW5 [imgW] [depW] [imgW]
    1 o5' (by norm_num)
  have h2 := C4_damping_adaptation ⟨1, 1, 1, 0⟩ 1 0 0 0 0 defaultK
    emptyImage emptyImage emptyImage 0 ⟨1, 1, 1, 0⟩ oW5 [imgW] [depW] [imgW]
    1 o5' (by norm_num)
  obtain ⟨hr, ha, hp, hl, hs⟩ := h
  exact ⟨(hr (by norm_num)).1, (hr (by norm_num)).2, h2.2.1 (by norm_num),
    hp, hl rfl, hs (by norm_num [oW5]) (by decide)⟩

/-- When the coarsest processed level has insufficient valid residuals, the
coarse-to-fine run fails with the distinct insufficient-data outcome. -/
theorem solveFrom_insufficient (precision delta : ℚ) (robust : ℕ)
    (cams : List Intrinsics) (maxIts : List ℕ) (p1 d1 p2 : List Image)
    (l : ℕ) (T : Affine4f) (lam : ℚ)
    (h : (ComputeResidualJacobianNaive (cams.getD l defaultK)
        (p1.getD l emptyImage) (p2.getD l emptyImage)
        (d1.getD l emptyImage) T).length < kMinResiduals) :
    solveFrom precision delta robust cams maxIts p1 d1 p2 l T lam =
      .error .insufficientData := by
  cases l with
  | zero =>
    simp only [solveFrom, runLevel]
    rw [if_pos h]
  | succ n =>
    simp only [solveFrom, runLevel]
    rw [if_pos h]

/-- Claim C7: when the coarsest pyramid level yields fewer valid residuals
than the minimal threshold, `Solve` signals the distinct insufficient-data
failure outcome instead of returning a transform, and leaves the optimizer
state exactly as it was before the call. -/
theorem C7_failure_outcome (o : Optimizer) (p1 d1 p2 : List Image)
    (hL : o.max_iterations_.length ≠ 0)
    (hbuild : (ComputeResidualJacobianNaive
        (o.camera_ptr_.getD (o.max_iterations_.length - 1) defaultK)
        (p1.getD (o.max_iterations_.length - 1) emptyImage)
        (p2.getD (o.max_iterations_.length - 1) emptyImage)
        (d1.getD (o.max_iterations_.length - 1) emptyImage)
        o.affine_init_).length < kMinResiduals) :
    Solve o p1 d1 p2 = (.error .insufficientData, o) := by
  unfold Solve
  have hsc : solveCore o.precision_ o.huber_delta_ o.robust_est_
      o.camera_ptr_ o.max_iterations_ o.affine_init_ o.lambda_ p1 d1 p2 =
      .error .insufficientData := by
    unfold solveCore
    rw [if_neg hL]
    exact solveFrom_insufficient o.precision_ o.huber_delta_ o.robust_est_
      o.camera_ptr_ o.max_iterations_ p1 d1 p2 _ _ _ hbuild
  rw [hsc]

/-- Witness for claim C7: a one-level configuration whose depth frame has no
valid pixel makes `Solve` fail with the insufficient-data outcome and leave
the state untouched. -/
theorem C7_failure_outcome_witness :
    Solve oW7 [tinyImg] [tinyDep0] [tinyImg] =
      (.error .insufficientData, oW7) :=
  C7_failure_outcome oW7 [tinyImg] [tinyDep0] [tinyImg] (by decide)
    (by decide)

/-- Claim C8: `Reset` fails exactly when the supplied initial transform has a
non-finite entry or the supplied damping is non-positive; on a structurally
consistent reinitialization it succeeds and resets the initial transform and
damping while clearing the iteration and cost statistics. -/
theorem C8_reset_validation (o : Optimizer) (init : Affine4fRaw) (lam : ℚ) :
    ((Reset o init lam).1 = .failed ↔
        ¬ (∀ i j, (init i j).isFinite = true) ∨ lam ≤ 0) ∧
      ((∀ i j, (init i j).isFinite = true) → 0 < lam →
        (Reset o init lam).2 =
          { o with
            affine_init_ := rawToQ init,
            lambda_ := lam,
            iters_stat_ := [],
            cost_stat_ := [] }) := by
  unfold Reset allFinite
  by_cases hf : ∀ i j, (init i j).isFinite = true
  · by_cases hl : 0 < lam
    · simp [hf, hl, not_le.mpr hl]
    · simp [hf, hl, not_lt.mp hl]
  · simp [hf]

/-- Witness for claim C8: resetting with the all-finite identity transform
and a positive damping succeeds and writes exactly the per-pair mutable
state. -/
theorem C8_reset_validation_witness :
    (Reset oW7 initW 2).2 =
      { oW7 with
        affine_init_ := rawToQ initW,
        lambda_ := 2,
        iters_stat_ := [],
        cost_stat_ := [] } :=
  (C8_reset_validation oW7 initW 2).2 (by decide) (by norm_num)

/-- Claim C10: `Reset` leaves every constructor-fixed hyperparameter — the
convergence precision, the per-level iteration caps, the robust-estimator
selector, the Huber threshold and the camera reference — unchanged, as well
as the working transform `affine_`; it modifies only the per-pair mutable
state. -/
theorem C10_reset_frame (o : Optimizer) (init : Affine4fRaw) (lam : ℚ) :
    (Reset o init lam).2.precision_ = o.precision_ ∧
      (Reset o init lam).2.max_iterations_ = o.max_iterations_ ∧
      (Reset o init lam).2.robust_est_ = o.robust_est_ ∧
      (Reset o init lam).2.huber_delta_ = o.huber_delta_ ∧
      (Reset o init lam).2.camera_ptr_ = o.camera_ptr_ ∧
      (Reset o init lam).2.affine_ = o.affine_ := by
  unfold Reset
  split <;> exact ⟨rfl, rfl, rfl, rfl, rfl, rfl⟩

/-- The success status of `Reset` depends only on the supplied arguments. -/
theorem Reset_fst_ok_iff (o : Optimizer) (init : Affine4fRaw) (lam : ℚ) :
    (Reset o init lam).1 = .ok ↔
      (allFinite init && decide (0 < lam)) = true := by
  unfold Reset
  by_cases h : (allFinite init && decide (0 < lam)) = true
  · simp [h]
  · simp [h]

/-- On a successful check, `Reset` writes exactly the per-pair mutable
state. -/
theorem Reset_ok_snd (o : Optimizer) (init : Affine4fRaw) (lam : ℚ)
    (h : (allFinite init && decide (0 < lam)) = true) :
    (Reset o init lam).2 =
      { o with
        affine_init_ := rawToQ init,
        lambda_ := lam,
        iters_stat_ := [],
        cost_stat_ := [] } := by
  unfold Reset
  rw [if_pos h]

/-- `Solve` never changes the constructor-fixed hyperparameters. -/
theorem Solve_hyper (o : Optimizer) (p1 d1 p2 : List Image) :
    (Solve o p1 d1 p2).2.precision_ = o.precision_ ∧
      (Solve o p1 d1 p2).2.max_iterations_ = o.max_iterations_ ∧
      (Solve o p1 d1 p2).2.robust_est_ = o.robust_est_ ∧
      (Solve o p1 d1 p2).2.huber_delta_ = o.huber_delta_ ∧
      (Solve o p1 d1 p2).2.camera_ptr_ = o.camera_ptr_ := by
  unfold Solve
  cases hsc : solveCore o.precision_ o.huber_delta_ o.robust_est_
      o.camera_ptr_ o.max_iterations_ o.affine_init_ o.lambda_ p1 d1 p2 with
  | error e => exact ⟨rfl, rfl, rfl, rfl, rfl⟩
  | ok r => exact ⟨rfl, rfl, rfl, rfl, rfl⟩

/-- The transform outcome of `Solve` is a function of the fields the
coarse-to-fine run reads. -/
theorem Solve_fst_core (o : Optimizer) (p1 d1 p2 : List Image) :
    (Solve o p1 d1 p2).1 =
      (solveCore o.precision_ o.huber_delta_ o.robust_est_ o.camera_ptr_
        o.max_iterations_ o.affine_init_ o.lambda_ p1 d1 p2).map Prod.fst := by
  unfold Solve
  cases hsc : solveCore o.precision_ o.huber_delta_ o.robust_est_
      o.camera_ptr_ o.max_iterations_ o.affine_init_ o.lambda_ p1 d1 p2 with
  | error e => rfl
  | ok r => rfl

/-- Claim C6: once a `Reset` with given arguments succeeds, running
`Reset` + `Solve` a second time with the same arguments — after the first
`Solve`, whatever internal damping/transform state it left behind — succeeds
again and returns the same transform outcome. -/
theorem C6_reset_solve_reproducible (o : Optimizer) (init : Affine4fRaw)
    (lam : ℚ) (p1 d1 p2 : List Image)
    (h1 : (Reset o init lam).1 = .ok) :
    (Reset (Solve (Reset o init lam).2 p1 d1 p2).2 init lam).1 = .ok ∧
      (Solve (Reset (Solve (Reset o init lam).2 p1 d1 p2).2 init lam).2
          p1 d1 p2).1 =
        (Solve (Reset o init lam).2 p1 d1 p2).1 := by
  have hc : (allFinite init && decide (0 < lam)) = true :=
    (Reset_fst_ok_iff o init lam).1 h1
  refine ⟨(Reset_fst_ok_iff _ init lam).2 hc, ?_⟩
  set o1 := (Reset o init lam).2 with ho1
  set o1' := (Solve o1 p1 d1 p2).2 with ho1'
  set o2 := (Reset o1' init lam).2 with ho2
  have hp1 : o1.precision_ = o.precision_ := by
    rw [ho1, Reset_ok_snd o init lam hc]
  have hm1 : o1.max_iterations_ = o.max_iterations_ := by
    rw [ho1, Reset_ok_snd o init lam hc]
  have hr1 : o1.robust_est_ = o.robust_est_ := by
    rw [ho1, Reset_ok_snd o init lam hc]
  have hh1 : o1.huber_delta_ = o.huber_delta_ := by
    rw [ho1, Reset_ok_snd o init lam hc]
  have hk1 : o1.camera_ptr_ = o.camera_ptr_ := by
    rw [ho1, Reset_ok_snd o init lam hc]
  have hhyper := Solve_hyper o1 p1 d1 p2
  have hp2 : o2.precision_ = o1.precision_ := by
    rw [ho2, Reset_ok_snd o1' init lam hc]
    show o1'.precision_ = o1.precision_
    rw [ho1']
    exact hhyper.1
  have hm2 : o2.max_iterations_ = o1.max_iterations_ := by
    rw [ho2, Reset_ok_snd o1' init lam hc]
    show o1'.max_iterations_ = o1.max_iterations_
    rw [ho1']
    exact hhyper.2.1
  have hr2 : o2.robust_est_ = o1.robust_est_ := by
    rw [ho2, Reset_ok_snd o1' init lam hc]
    show o1'.robust_est_ = o1.robust_est_
    rw [ho1']
    exact hhyper.2.2.1
  have hh2 : o2.huber_delta_ = o1.huber_delta_ := by
    rw [ho2, Reset_ok_snd o1' init lam hc]
    show o1'.huber_delta_ = o1.huber_delta_
    rw [ho1']
    exact hhyper.2.2.2.1
  have hk2 : o2.camera_ptr_ = o1.camera_ptr_ := by
    rw [ho2, Reset_ok_snd o1' init lam hc]
    show o1'.camera_ptr_ = o1.camera_ptr_
    rw [ho1']
    exact hhyper.2.2.2.2
  have ha2 : o2.affine_init_ = o1.affine_init_ := by
    rw [ho2, Reset_ok_snd o1' init lam hc, ho1, Reset_ok_snd o init lam hc]
  have hl2 : o2.lambda_ = o1.lambda_ := by
    rw [ho2, Reset_ok_snd o1' init lam hc, ho1, Reset_ok_snd o init lam hc]
  rw [Solve_fst_core o2 p1 d1 p2, Solve_fst_core o1 p1 d1 p2, hp2, hm2, hr2,
    hh2, hk2, ha2, hl2]

/-- Witness for claim C6: a concrete optimizer and frame pair (the failure
path of `Solve`, whose outcome is still deterministic) give identical
outcomes across two `Reset` + `Solve` runs. -/
theorem C6_reset_solve_reproducible_witness :
    (Reset (Solve (Reset oW6 initW 1).2 [tinyImg] [tinyDep0] [tinyImg]).2
        initW 1).1 = .ok ∧
      (Solve (Reset (Solve (Reset oW6 initW 1).2 [tinyImg] [tinyDep0]
          [tinyImg]).2 initW 1).2 [tinyImg] [tinyDep0] [tinyImg]).1 =
        (Solve (Reset oW6 initW 1).2 [tinyImg] [tinyDep0] [tinyImg]).1 :=
  C6_reset_solve_reproducible oW6 initW 1 [tinyImg] [tinyDep0] [tinyImg]
    (by decide)

/-- The homogeneous coordinates of a transformed point are the transform
applied to the homogeneous coordinates, for any transform with the rigid
bottom row. -/
theorem toHom_applyTransform (T : Affine4f) (p : Fin 3 → ℚ)
    (hrow : T 3 = ![0, 0, 0, 1]) :
    toHom (applyTransform T p) = T.mulVec (toHom p) := by
  funext i
  fin_cases i
  · rfl
  · rfl
  · rfl
  · show (1 : ℚ) = T.mulVec (toHom p) 3
    show (1 : ℚ) = Finset.univ.sum fun j => T 3 j * toHom p j
    rw [hrow, Fin.sum_univ_four]
    simp [toHom]

/-- The adjugate-based inverse is a left inverse on transforms with nonzero
determinant. -/
theorem inv4_mul (A : Affine4f) (h : A.det ≠ 0) : inv4 A * A = 1 := by
  unfold inv4
  rw [Matrix.smul_mul, Matrix.adjugate_mul, smul_smul, inv_mul_cancel₀ h,
    one_smul]

/-- Claim C9: the transform returned by `Solve` takes frame 1's camera frame
to frame 2's camera frame — the frame-2 camera coordinates of a frame-1
point `p` are `applyTransform rela p`, exactly as the residual builder uses
them — so composing frame 1's absolute pose with the inverse of the returned
transform (the update of `test_optimizer.cpp` line 94) assigns those frame-2
coordinates the same world position that frame 1's absolute pose assigns
`p`. -/
theorem C9_pose_convention (pose1 rela : Affine4f) (hdet : rela.det ≠ 0)
    (hrow : rela 3 = ![0, 0, 0, 1]) (p : Fin 3 → ℚ) :
    (nextAbsolutePose pose1 rela).mulVec (toHom (applyTransform rela p)) =
      pose1.mulVec (toHom p) := by
  rw [toHom_applyTransform rela p hrow]
  unfold nextAbsolutePose
  rw [Matrix.mulVec_mulVec, mul_assoc, inv4_mul rela hdet, mul_one]

/-- Witness for claim C9 at a concrete invertible rigid transform (a pure
translation) and a concrete point. -/
theorem C9_pose_convention_witness :
    (nextAbsolutePose 1 !![1, 0, 0, 2; 0, 1, 0, 3; 0, 0, 1, 4; 0, 0, 0, 1]
        : Affine4f).mulVec
        (toHom (applyTransform
          !![1, 0, 0, 2; 0, 1, 0, 3; 0, 0, 1, 4; 0, 0, 0, 1] ![1, 1, 1])) =
      (1 : Affine4f).mulVec (toHom ![1, 1, 1]) :=
  C9_pose_convention 1 !![1, 0, 0, 2; 0, 1, 0, 3; 0, 0, 1, 4; 0, 0, 0, 1]
    (by simp [Matrix.det_succ_row_zero, Fin.sum_univ_succ]) (by decide)
    ![1, 1, 1]

end Odometry
